import Mathlib

/-!
Verification of the `pockettracing` tracing engine.

The Python source (`src/pockettracing/__init__.py` and
`src/pockettracing/hc.py`) is shallowly embedded below:

* Python dicts (spans are `TypedDict`s, i.e. plain dicts) are association
  lists whose semantics is given by `dlookup`: the FIRST binding of a key
  is its value.  A dict assignment `d[k] = v` is modeled by consing
  `(k, v)` in front, and the right-biased union `a | b` is modeled by
  `b ++ a`; both are faithful to Python under `dlookup`.
* Python floats (wall-clock times, durations) are modeled as rationals;
  the wall clock `time()` and the monotonic clock `perf_counter()` are
  external collaborators, modeled as streams `Nat → ℚ` read at an
  incrementing tick index.
* Exceptions are modeled by an `Option String` outcome carrying the
  textual form (`repr`) of the raised exception; `none` is a normal exit.
* The body of a `with tracer.trace(...)`/`tracer.span(...)` block is
  caller code; it is modeled by the syntax tree `Body`, whose
  constructors are the operations a caller can perform against the
  library: do nothing, observe the yielded metadata dict (`snap`),
  mutate it (`addMeta`), raise (`throwErr`), sequence, open a nested
  span (`Tracer.span` with no explicit parent), and open an imported
  child span (`Tracer.span_from_dict`).  The context variable
  `_active_trace_and_span` is the `ctx` argument threaded through
  `runBody`; setting/resetting the token is the functional save/restore.
* The shared mutable child-span list is modeled compositionally:
  `runBody` returns the records appended to the children list of the
  currently active context (`RunOut.recs`).  `span_from_dict` allocates
  a fresh list and flushes it, which the embedding renders by wrapping
  the inner records and emitting them.  `Tracer._emit` deliveries are
  accumulated in `St.emitted`.
-/

namespace PocketTracing

/-- Values stored in span dictionaries: strings, or numbers (Python
floats modeled as rationals). -/
inductive Val where
  | str (s : String)
  | num (q : ℚ)
deriving DecidableEq, Repr

/-- A Python dict with string keys: an association list where the first
binding of a key wins (see module docstring). -/
abbrev Dict := List (String × Val)

/-- Lookup in an association list with string keys (Python `d[k]` /
`d.get(k)`); the first binding wins. -/
def dlookup {α : Type} (k : String) : List (String × α) → Option α
  | [] => none
  | (k', v) :: t => if k' = k then some v else dlookup k t

/-- Python `str.split(sep)` for a one-character separator, on the
character list of the string.  `pySplit c []` is `[[]]`, matching
`"".split(",") == [""]`. -/
def pySplit (sep : Char) : List Char → List (List Char)
  | [] => [[]]
  | c :: rest =>
    let r := pySplit sep rest
    if c = sep then [] :: r
    else
      match r with
      | [] => [[c]]
      | h :: t => (c :: h) :: t

/-- Python `str(v)` on a span-dict value.  The exact float formatting is
external; `toString` on the rational stands in for it. -/
def pyStr : Val → String
  | .str s => s
  | .num q => toString q

/-- Python `int(q)`: truncation toward zero. -/
def pyInt (q : ℚ) : ℤ := if 0 ≤ q then q.floor else -((-q).floor)

/-- Tracer-wide configuration together with the external clock
collaborators.  `meta0` is `Tracer.metadata`, `pfx` is
`Tracer.trace_prefix`; `wall` models `time()` and `mono` models
`perf_counter()`, read at successive tick indices. -/
structure Env where
  meta0 : Dict
  pfx : String
  wall : Nat → ℚ
  mono : Nat → ℚ

/-- Mutable program state threaded through a run: the global `_span_cnt`
counter, the clock tick index, the lists handed to receivers by
`Tracer._emit` (in delivery order), and the metadata-dict snapshots the
caller code observed (`Body.snap`). -/
structure St where
  scnt : Nat
  tick : Nat
  emitted : List (List Dict)
  obs : List Dict
deriving DecidableEq, Repr

/-- Result of running a scope body: the scope's metadata dict after the
body ran, the span records the body appended to the children list of the
enclosing active context, the final state, and the exception outcome
(`none` = normal exit, `some e` = an exception whose `repr` is `e`). -/
structure RunOut where
  meta : Dict
  recs : List Dict
  st : St
  exc : Option String
deriving DecidableEq, Repr

/-- Caller code run inside a `trace`/`span` scope (see module
docstring). -/
inductive Body where
  | skip
  | snap
  | addMeta (k : String) (v : Val)
  | throwErr (e : String)
  | seq (a b : Body)
  | span (name : String) (kwargs : Dict) (inner : Body)
  | spanFromDict (name : String) (kwargs : Dict)
      (carrier : List (String × String)) (inner : Body)
deriving DecidableEq, Repr

/-- Models `f"{prefix}:span:{_span_cnt()}"`. -/
def mintSpanId (pfx : String) (n : Nat) : String :=
  pfx ++ ":span:" ++ toString n

/-- Models `f"{prefix}:{_trace_cnt()}"`. -/
def mintTraceId (pfx : String) (n : Nat) : String :=
  pfx ++ ":" ++ toString n

/-- The fixed schema entries a closing scope writes into its span record
(`Tracer.trace` / `Tracer.span`, the dict literal merged over
`self.metadata`). -/
def baseFields (name : String) (start durms : ℚ) (tid sid : String) : Dict :=
  [("name", .str name), ("time", .num start), ("duration_ms", .num durms),
   ("trace.trace_id", .str tid), ("trace.span_id", .str sid)]

/-- The optional `"trace.parent_id"` entry (present for `Tracer.span`,
absent for the `Tracer.trace` root). -/
def parField : Option String → Dict
  | none => []
  | some p => [("trace.parent_id", .str p)]

/-- The scope metadata after the `except BaseException` clause: on an
exception, `metadata["error"] = repr(exc)` is assigned before the
record is built. -/
def errMeta (r : RunOut) : Dict :=
  match r.exc with
  | some e => ("error", Val.str e) :: r.meta
  | none => r.meta

/-- The span record a closing scope appends:
`self.metadata | {fixed fields} | scope_metadata` (right wins), which
under first-binding-wins lookup is `scope_metadata ++ fixed ++ metadata`. -/
def closeRec (env : Env) (name : String) (start durms : ℚ) (tid sid : String)
    (par : Option String) (r : RunOut) : Dict :=
  errMeta r ++ (baseFields name start durms tid sid ++ (parField par ++ env.meta0))

/-- Run caller code under an active context `ctx` (the value of
`Tracer._active_trace_and_span` restricted to its id pair; the shared
children-list component is the implicit "current accumulator", see
module docstring).  `m` is the current scope's metadata dict. -/
def runBody (env : Env) : Option (String × String) → Body → Dict → St → RunOut
  | _, .skip, m, st => ⟨m, [], st, none⟩
  | _, .snap, m, st => ⟨m, [], { st with obs := st.obs ++ [m] }, none⟩
  | _, .addMeta k v, m, st => ⟨(k, v) :: m, [], st, none⟩
  | _, .throwErr e, m, st => ⟨m, [], st, some e⟩
  | ctx, .seq a b, m, st =>
    let ra := runBody env ctx a m st
    match ra.exc with
    | some _ => ra
    | none =>
      let rb := runBody env ctx b ra.meta ra.st
      ⟨rb.meta, ra.recs ++ rb.recs, rb.st, rb.exc⟩
  | ctx, .span name kwargs inner, m, st =>
    -- Tracer.span: `parent = parent or self._active_trace_and_span.get()`;
    -- no explicit parent here, so the parent is the active context.
    match ctx with
    | none =>
      -- `if parent is None: yield span_metadata; return` — non-recording,
      -- the body runs with the (absent) context untouched.
      let r := runBody env none inner kwargs st
      ⟨m, r.recs, r.st, r.exc⟩
    | some (tid, pid) =>
      let sid := mintSpanId env.pfx st.scnt
      let st1 : St := { st with scnt := st.scnt + 1 }
      let start := env.wall st1.tick
      let st2 : St := { st1 with tick := st1.tick + 1 }
      let d0 := env.mono st2.tick
      let st3 : St := { st2 with tick := st2.tick + 1 }
      let r := runBody env (some (tid, sid)) inner kwargs st3
      let dur := env.mono r.st.tick - d0
      let st4 : St := { r.st with tick := r.st.tick + 1 }
      ⟨m, r.recs ++ [closeRec env name start (dur * 1000) tid sid (some pid) r],
        st4, r.exc⟩
  | ctx, .spanFromDict name kwargs carrier inner, m, st =>
    -- Tracer.span_from_dict.
    match dlookup "_trace" carrier with
    | none =>
      -- `if "_trace" not in parent_dict: yield {}; return` — the active
      -- context is left untouched, the body runs against it.
      let r := runBody env ctx inner [] st
      ⟨m, r.recs, r.st, r.exc⟩
    | some v =>
      match pySplit ',' v.data with
      | [ta, pa] =>
        -- `trace_id, parent_id = parent_dict["_trace"].split(",")`,
        -- then `with self.span(name, (trace_id, parent_id, children))`
        -- on a fresh `children` list, and `self._emit(children)` in the
        -- `finally`.  The explicit-parent `Tracer.span` call is inlined.
        let tid := String.mk ta
        let pid := String.mk pa
        let sid := mintSpanId env.pfx st.scnt
        let st1 : St := { st with scnt := st.scnt + 1 }
        let start := env.wall st1.tick
        let st2 : St := { st1 with tick := st1.tick + 1 }
        let d0 := env.mono st2.tick
        let st3 : St := { st2 with tick := st2.tick + 1 }
        let r := runBody env (some (tid, sid)) inner kwargs st3
        let dur := env.mono r.st.tick - d0
        let st4 : St := { r.st with tick := r.st.tick + 1 }
        let children :=
          r.recs ++ [closeRec env name start (dur * 1000) tid sid (some pid) r]
        ⟨m, [], { st4 with emitted := st4.emitted ++ [children] }, r.exc⟩
      | _ =>
        -- Tuple unpacking of a split that is not exactly two parts
        -- raises a ValueError before the `try`; nothing is emitted.
        ⟨m, [], st, some "ValueError"⟩

/-- The sampling test in `Tracer.trace`:
`self.trace_chance is not None and random() > self.trace_chance`. -/
def skipTrace (chance : Option ℚ) (draw : ℚ) : Bool :=
  match chance with
  | some c => decide (c < draw)
  | none => false

/-- Result of a whole `Tracer.trace` call: final trace metadata dict,
state, and exception outcome. -/
structure TraceOut where
  meta : Dict
  st : St
  exc : Option String
deriving DecidableEq, Repr

/-- Models `Tracer.trace`, the root scope.  `draw` is the `random()` sample,
`tcnt` the global `_trace_cnt` value. -/
def runTrace (env : Env) (chance : Option ℚ) (draw : ℚ) (tcnt : Nat)
    (name : String) (kwargs : Dict) (b : Body) (st : St) : TraceOut :=
  if skipTrace chance draw then
    -- `yield {}; return`: no ids, no context, no recording; the body
    -- still runs (against no active context) and its outcome propagates.
    let r := runBody env none b [] st
    ⟨r.meta, r.st, r.exc⟩
  else
    let tid := mintTraceId env.pfx tcnt
    let sid := mintSpanId env.pfx st.scnt
    let st1 : St := { st with scnt := st.scnt + 1 }
    let start := env.wall st1.tick
    let st2 : St := { st1 with tick := st1.tick + 1 }
    let d0 := env.mono st2.tick
    let st3 : St := { st2 with tick := st2.tick + 1 }
    let r := runBody env (some (tid, sid)) b kwargs st3
    let dur := env.mono r.st.tick - d0
    let st4 : St := { r.st with tick := r.st.tick + 1 }
    let root := closeRec env name start (dur * 1000) tid sid none r
    let children := r.recs ++ [root]
    ⟨errMeta r, { st4 with emitted := st4.emitted ++ [children] }, r.exc⟩

/-- Models `Tracer.span_to_dict`: export the active context as a propagation
carrier. -/
def spanToDict : Option (String × String) → List (String × String)
  | none => []
  | some (tid, sid) => [("_trace", tid ++ "," ++ sid)]

/-! ### The structured log encoder (`encode_trace`) -/

/-- The fixed span schema keys,
`Span.__required_keys__ | Span.__optional_keys__`. -/
def schemaKeys : List String :=
  ["name", "time", "duration_ms", "service.name",
   "trace.trace_id", "trace.span_id", "trace.parent_id"]

/-- One structured log record printed by `encode_trace`
(`span_dict | metadata | tg`, one line per span).  The optional trace
group summary is `(traceGroup, endTime, durationInNanos)`. -/
structure LogRec where
  logger : String
  traceId : String
  spanId : String
  name : String
  startTime : String
  endTime : String
  serviceName : String
  durationInNanos : ℤ
  parentSpanId : String
  extra : List (String × String)
  tg : Option (String × String × ℤ)
deriving DecidableEq, Repr

/-- Maps a fallible function over a list (`mapM` in `Option`): any failing element (a raised
`KeyError`/`TypeError` in the source) aborts the whole call. -/
def mapO {α β : Type} (f : α → Option β) : List α → Option (List β)
  | [] => some []
  | a :: t =>
    match f a, mapO f t with
    | some b, some bs => some (b :: bs)
    | _, _ => none

/-- The trace-group summary of `encode_trace`: built from the LAST
delivered span exactly when it has no `"trace.parent_id"` key.  The
outer `Option` is the error monad (a span without the needed numeric
fields would raise); the inner `Option` is presence of the summary.
`iso` is the external `datetime...isoformat` collaborator. -/
def traceGroupOf (iso : ℚ → String) (last : Dict) :
    Option (Option (String × String × ℤ)) :=
  if (dlookup "trace.parent_id" last).isSome then some none
  else
    match dlookup "name" last, dlookup "time" last,
        dlookup "duration_ms" last with
    | some namev, some (.num t), some (.num dur) =>
      some (some (pyStr namev, iso (t + dur / 1000), pyInt (dur * 1000000)))
    | _, _, _ => none

/-- One record of `encode_trace`'s per-span loop. -/
def encodeSpanRec (iso : ℚ → String) (tg : Option (String × String × ℤ))
    (d : Dict) : Option LogRec :=
  match dlookup "trace.trace_id" d, dlookup "trace.span_id" d,
      dlookup "name" d, dlookup "time" d, dlookup "duration_ms" d,
      dlookup "service.name" d with
  | some tidv, some sidv, some namev, some (.num t), some (.num dur),
      some svcv =>
    some
      { logger := "trace"
        traceId := pyStr tidv
        spanId := pyStr sidv
        name := pyStr namev
        startTime := iso t
        endTime := iso (t + dur / 1000)
        serviceName := pyStr svcv
        durationInNanos := pyInt (dur * 1000000)
        parentSpanId :=
          match dlookup "trace.parent_id" d with
          | none => ""
          | some v => pyStr v
        extra := (d.filter fun p => !(schemaKeys.contains p.1)).map
          fun p => (p.1, pyStr p.2)
        tg := tg }
  | _, _, _, _, _, _ => none

/-- Models `encode_trace`; `none` is an uncaught exception (an empty list
raises `IndexError` at `spans[-1]`). -/
def encodeTrace (iso : ℚ → String) (spans : List Dict) :
    Option (List LogRec) :=
  match spans.getLast? with
  | none => none
  | some last =>
    match traceGroupOf iso last with
    | none => none
    | some tg => mapO (encodeSpanRec iso tg) spans

/-! ### The buffered batch exporter (`hc.py`) -/

/-- Models `add_to_buffer` from `send_to_honeycomb`:
`if len(buffer) < 1000: buffer.extend(spans)`. -/
def addToBuffer (buffer spans : List Dict) : List Dict :=
  if buffer.length < 1000 then buffer ++ spans else buffer

/-- Python `d.pop(k)`: the popped value (if any) and the dict after the
in-place removal. -/
def popKey {α : Type} (k : String) (d : List (String × α)) :
    Option α × List (String × α) :=
  (dlookup k d, d.filter fun p => !(p.1 == k))

/-- One element of the upload payload comprehension
`{"data": e, "time": str(e.pop("time"))}`: `"data"` holds a reference to
`e`, which the `pop` has already mutated, so the payload's data dict is
the popped dict.  `none` models the `KeyError` of a span without
`"time"`. -/
def exportOne (e : Dict) : Option (Dict × String) :=
  match popKey "time" e with
  | (some v, e') => some (e', pyStr v)
  | (none, _) => none

/-- One drain-and-encode cycle of `send_to_honeycomb`'s inner loop, up
to the network POST: the payload items, and the span dicts as mutated in
place (the same objects every receiver was handed). -/
def exportCycle (buf : List Dict) : Option (List (Dict × String) × List Dict) :=
  match mapO exportOne buf with
  | some items => some (items, items.map Prod.fst)
  | none => none

/-! ### Predicates used by the claims -/

/-- Keys of a span record's fixed schema; caller metadata is assumed not
to shadow them (a caller passing e.g. `trace.trace_id` as a metadata
kwarg would overwrite the engine's field, since caller metadata is the
rightmost operand of the record's dict union). -/
def dictAvoids (d : Dict) : Bool :=
  d.all fun p => !(schemaKeys.contains p.1)

/-- All caller metadata mentioned in a body (kwargs of nested scopes and
`addMeta` keys) avoids the fixed schema keys. -/
def bodyAvoids : Body → Bool
  | .skip => true
  | .snap => true
  | .addMeta k _ => !(schemaKeys.contains k)
  | .throwErr _ => true
  | .seq a b => bodyAvoids a && bodyAvoids b
  | .span _ kwargs inner => dictAvoids kwargs && bodyAvoids inner
  | .spanFromDict _ kwargs _ inner => dictAvoids kwargs && bodyAvoids inner

/-- The body never calls `Tracer.span_from_dict` (cross-boundary
import). -/
def noImport : Body → Bool
  | .skip => true
  | .snap => true
  | .addMeta _ _ => true
  | .throwErr _ => true
  | .seq a b => noImport a && noImport b
  | .span _ _ inner => noImport inner
  | .spanFromDict _ _ _ _ => false

def traceIdOf (r : Dict) : Option Val := dlookup "trace.trace_id" r

def spanIdOf (r : Dict) : Option Val := dlookup "trace.span_id" r

def parentOf (r : Dict) : Option Val := dlookup "trace.parent_id" r

def nameOf (r : Dict) : Option Val := dlookup "name" r

/-- Every record's parent is either the enclosing scope `pid` or a span
that occurs LATER in the list (children close, hence append, before
their parents). -/
def linked (pid : String) : List Dict → Prop
  | [] => True
  | r :: rest =>
    (∀ p, parentOf r = some (Val.str p) →
      (p = pid ∨ ∃ r2 ∈ rest, spanIdOf r2 = some (Val.str p))) ∧
    linked pid rest

/-- Every span other than the last has a parent naming a span that
appears later in the same list. -/
def okChain : List Dict → Prop
  | [] => True
  | r :: rest =>
    (rest ≠ [] → ∀ p, parentOf r = some (Val.str p) →
      ∃ r2 ∈ rest, spanIdOf r2 = some (Val.str p)) ∧
    okChain rest

/-- The property claimed (wrongly) of emitted lists: every span's parent
names a span id that appeared EARLIER in the list.  `seen` carries the
span ids encountered so far. -/
def okEarlier (seen : List String) : List Dict → Bool
  | [] => true
  | r :: rest =>
    (match parentOf r with
      | none => true
      | some (Val.str p) => seen.contains p
      | some _ => false) &&
    okEarlier
      (match spanIdOf r with
        | some (Val.str s) => seen ++ [s]
        | _ => seen) rest

/-- The "group root" test of the claim about `encode_trace`: the last
span has no parent id, or its parent id names no span in the list. -/
def claimRootB (spans : List Dict) : Bool :=
  match spans.getLast? with
  | none => false
  | some last =>
    match parentOf last with
    | none => true
    | some (Val.str p) =>
      !(spans.any fun d => spanIdOf d == some (Val.str p))
    | some _ => false

/-- A fixed environment and start state for concrete runs. -/
def env0 : Env := ⟨[], "p", fun _ => 0, fun _ => 0⟩

def st0 : St := ⟨0, 0, [], []⟩

/-- State after a recording scope's entry bookkeeping: one span id
minted, wall clock and monotonic clock each read once. -/
def stepSt (st : St) : St :=
  { st with scnt := st.scnt + 1, tick := st.tick + 1 + 1 }

/-- The run of a recording scope's body: the active context becomes
`(tid, freshly minted span id)`. -/
def scopeRun (env : Env) (tid : String) (kwargs : Dict) (inner : Body)
    (st : St) : RunOut :=
  runBody env (some (tid, mintSpanId env.pfx st.scnt)) inner kwargs (stepSt st)

/-- The record a recording scope appends when it closes. -/
def scopeClose (env : Env) (name tid : String) (par : Option String)
    (kwargs : Dict) (inner : Body) (st : St) : Dict :=
  closeRec env name (env.wall st.tick)
    ((env.mono (scopeRun env tid kwargs inner st).st.tick - env.mono (st.tick + 1)) * 1000)
    tid (mintSpanId env.pfx st.scnt) par (scopeRun env tid kwargs inner st)

/-- A well-formed delivery: one trace id across all records, and every
record but the last names, as its parent, a span that appears later. -/
def emitGood (l : List Dict) : Prop :=
  (∃ t, ∀ r ∈ l, traceIdOf r = some (Val.str t)) ∧ okChain l

/-- A concrete delivered list whose last (and only) span carries a
`trace.parent_id` naming no span in the list — exactly what
`span_from_dict` deliveries look like. -/
def c8cexSpan : Dict :=
  [("name", Val.str "c"), ("time", Val.num 0), ("duration_ms", Val.num 0),
   ("service.name", Val.str "svc"), ("trace.trace_id", Val.str "t"),
   ("trace.span_id", Val.str "s"), ("trace.parent_id", Val.str "x")]

/-- A trivial stand-in for the external ISO-8601 formatter. -/
def iso0 : ℚ → String := fun _ => ""

/-- A concrete root-only delivered list (no `trace.parent_id`). -/
def c8rootSpan : Dict :=
  [("name", Val.str "r"), ("time", Val.num 0), ("duration_ms", Val.num 0),
   ("service.name", Val.str "svc"), ("trace.trace_id", Val.str "t"),
   ("trace.span_id", Val.str "s")]

/-- The record `encode_trace` produces for `c8rootSpan`. -/
def c8rootRec : LogRec :=
  { logger := "trace", traceId := "t", spanId := "s", name := "r",
    startTime := "", endTime := "", serviceName := "svc",
    durationInNanos := pyInt ((0 : ℚ) * 1000000), parentSpanId := "",
    extra := [], tg := some ("r", "", pyInt ((0 : ℚ) * 1000000)) }

/-! ### Dictionary lemmas -/

theorem dlookup_append_of_none {α : Type} {k : String}
    {a : List (String × α)} (b : List (String × α))
    (h : dlookup k a = none) : dlookup k (a ++ b) = dlookup k b := by
  induction a with
  | nil => rfl
  | cons p t ih =>
    obtain ⟨k', v⟩ := p
    by_cases hk : k' = k
    · simp [dlookup, hk] at h
    · simp only [dlookup, List.cons_append, if_neg hk] at h ⊢
      exact ih h

theorem dlookup_avoids_none {d : Dict} {k : String}
    (h : dictAvoids d = true) (hk : schemaKeys.contains k = true) :
    dlookup k d = none := by
  induction d with
  | nil => rfl
  | cons p t ih =>
    obtain ⟨k', v⟩ := p
    simp only [dictAvoids, List.all_cons, Bool.and_eq_true, Bool.not_eq_true'] at h
    by_cases hke : k' = k
    · subst hke
      rw [hk] at h
      exact absurd h.1 (by simp)
    · simp only [dlookup, if_neg hke]
      exact ih (by simpa [dictAvoids] using h.2)

theorem dictAvoids_errMeta {r : RunOut} (h : dictAvoids r.meta = true) :
    dictAvoids (errMeta r) = true := by
  unfold errMeta
  cases r.exc with
  | none => exact h
  | some e =>
    simp only [dictAvoids, List.all_cons, Bool.and_eq_true]
    exact ⟨by decide, h⟩

theorem dlookup_closeRec_eq {env : Env} {name : String} {start durms : ℚ}
    {tid sid : String} {par : Option String} {r : RunOut} {k : String}
    (h : dictAvoids r.meta = true) (hk : schemaKeys.contains k = true) :
    dlookup k (closeRec env name start durms tid sid par r)
      = dlookup k (baseFields name start durms tid sid ++ (parField par ++ env.meta0)) := by
  unfold closeRec
  exact dlookup_append_of_none _
    (dlookup_avoids_none (dictAvoids_errMeta h) hk)

theorem traceIdOf_closeRec {env : Env} {name : String} {start durms : ℚ}
    {tid sid : String} {par : Option String} {r : RunOut}
    (h : dictAvoids r.meta = true) :
    traceIdOf (closeRec env name start durms tid sid par r)
      = some (Val.str tid) := by
  rw [traceIdOf, dlookup_closeRec_eq h (by decide)]
  rfl

theorem spanIdOf_closeRec {env : Env} {name : String} {start durms : ℚ}
    {tid sid : String} {par : Option String} {r : RunOut}
    (h : dictAvoids r.meta = true) :
    spanIdOf (closeRec env name start durms tid sid par r)
      = some (Val.str sid) := by
  rw [spanIdOf, dlookup_closeRec_eq h (by decide)]
  rfl

theorem nameOf_closeRec {env : Env} {name : String} {start durms : ℚ}
    {tid sid : String} {par : Option String} {r : RunOut}
    (h : dictAvoids r.meta = true) :
    nameOf (closeRec env name start durms tid sid par r)
      = some (Val.str name) := by
  rw [nameOf, dlookup_closeRec_eq h (by decide)]
  rfl

theorem parentOf_closeRec_some {env : Env} {name : String} {start durms : ℚ}
    {tid sid p : String} {r : RunOut} (h : dictAvoids r.meta = true) :
    parentOf (closeRec env name start durms tid sid (some p) r)
      = some (Val.str p) := by
  rw [parentOf, dlookup_closeRec_eq h (by decide)]
  rfl

theorem parentOf_closeRec_none {env : Env} {name : String} {start durms : ℚ}
    {tid sid : String} {r : RunOut} (h : dictAvoids r.meta = true) :
    parentOf (closeRec env name start durms tid sid none r)
      = dlookup "trace.parent_id" env.meta0 := by
  rw [parentOf, dlookup_closeRec_eq h (by decide)]
  rfl

theorem dlookup_error_closeRec {env : Env} {name : String} {start durms : ℚ}
    {tid sid : String} {par : Option String} {r : RunOut} {e : String}
    (hexc : r.exc = some e) :
    dlookup "error" (closeRec env name start durms tid sid par r)
      = some (Val.str e) := by
  unfold closeRec errMeta
  rw [hexc]
  rfl

/-! ### Linkage lemmas -/

theorem linked_append {pid : String} {A B : List Dict}
    (h1 : linked pid A) (h2 : linked pid B) : linked pid (A ++ B) := by
  induction A with
  | nil => simpa using h2
  | cons r t ih =>
    obtain ⟨hr, ht⟩ := h1
    refine ⟨fun p hp => ?_, ih ht⟩
    rcases hr p hp with h | ⟨r2, hm, hs⟩
    · exact Or.inl h
    · exact Or.inr ⟨r2, List.mem_append_left _ hm, hs⟩

theorem linked_snoc {sid pid : String} {R : List Dict} {c : Dict}
    (h : linked sid R) (hc : spanIdOf c = some (Val.str sid))
    (hp : parentOf c = some (Val.str pid)) : linked pid (R ++ [c]) := by
  induction R with
  | nil =>
    refine ⟨fun p hpar => ?_, trivial⟩
    rw [hp] at hpar
    refine Or.inl ?_
    injection hpar with h'
    injection h' with h''
    exact h''.symm
  | cons r t ih =>
    obtain ⟨hr, ht⟩ := h
    refine ⟨fun p hpar => ?_, ih ht⟩
    rcases hr p hpar with h' | ⟨r2, hm, hs⟩
    · subst h'
      exact Or.inr ⟨c, List.mem_append_right _ (by simp), hc⟩
    · exact Or.inr ⟨r2, List.mem_append_left _ hm, hs⟩

theorem okChain_of_linked {sid : String} {R : List Dict} {c : Dict}
    (h : linked sid R) (hc : spanIdOf c = some (Val.str sid)) :
    okChain (R ++ [c]) := by
  induction R with
  | nil => exact ⟨fun h' => absurd rfl h', trivial⟩
  | cons r t ih =>
    obtain ⟨hr, ht⟩ := h
    refine ⟨fun _ p hpar => ?_, ih ht⟩
    rcases hr p hpar with h' | ⟨r2, hm, hs⟩
    · subst h'
      exact ⟨c, List.mem_append_right _ (by simp), hc⟩
    · exact ⟨r2, List.mem_append_left _ hm, hs⟩

/-! ### Structural run lemmas -/

/-- With no active context, nothing is ever appended to an enclosing
children list (there is none): plain spans degrade to non-recording
scopes and imported spans write only to their own fresh list. -/
theorem recs_nil_of_ctx_none (env : Env) (b : Body) :
    ∀ m st, (runBody env none b m st).recs = [] := by
  induction b with
  | skip => intro m st; rfl
  | snap => intro m st; rfl
  | addMeta k v => intro m st; rfl
  | throwErr e => intro m st; rfl
  | seq a b iha ihb =>
    intro m st
    simp only [runBody]
    cases hx : (runBody env none a m st).exc with
    | some e => simpa [hx] using iha m st
    | none => simp [hx, iha, ihb]
  | span name kwargs inner ih =>
    intro m st
    simp only [runBody]
    exact ih kwargs st
  | spanFromDict name kwargs carrier inner ih =>
    intro m st
    simp only [runBody]
    cases hc : dlookup "_trace" carrier with
    | none => simpa [hc] using ih [] st
    | some v =>
      simp only [hc]
      rcases hs : pySplit ',' v.data with _ | ⟨ta, _ | ⟨pa, _ | _⟩⟩ <;> simp [hs]

/-- A body that never imports leaves the span counter, the clock and the
emitted deliveries unchanged when run with no active context: sampling
is decided once, at the root. -/
theorem state_frozen_of_noImport_none (env : Env) (b : Body)
    (hni : noImport b = true) :
    ∀ m st, (runBody env none b m st).st.scnt = st.scnt
      ∧ (runBody env none b m st).st.tick = st.tick
      ∧ (runBody env none b m st).st.emitted = st.emitted := by
  induction b with
  | skip => intro m st; exact ⟨rfl, rfl, rfl⟩
  | snap => intro m st; exact ⟨rfl, rfl, rfl⟩
  | addMeta k v => intro m st; exact ⟨rfl, rfl, rfl⟩
  | throwErr e => intro m st; exact ⟨rfl, rfl, rfl⟩
  | seq a b iha ihb =>
    intro m st
    simp only [noImport, Bool.and_eq_true] at hni
    obtain ⟨ha, hb⟩ := hni
    have Ha := iha ha m st
    simp only [runBody]
    cases hx : (runBody env none a m st).exc with
    | some e => simpa [hx] using Ha
    | none =>
      have Hb := ihb hb (runBody env none a m st).meta (runBody env none a m st).st
      simp only [hx]
      exact ⟨Hb.1.trans Ha.1, Hb.2.1.trans Ha.2.1, Hb.2.2.trans Ha.2.2⟩
  | span name kwargs inner ih =>
    intro m st
    simp only [noImport] at hni
    simpa [runBody] using ih hni kwargs st
  | spanFromDict name kwargs carrier inner ih =>
    simp [noImport] at hni

/-- Plain spans (and everything not importing) never trigger a delivery
themselves, under any context. -/
theorem emitted_frozen_of_noImport (env : Env) (b : Body)
    (hni : noImport b = true) :
    ∀ ctx m st, (runBody env ctx b m st).st.emitted = st.emitted := by
  induction b with
  | skip => intro ctx m st; rfl
  | snap => intro ctx m st; rfl
  | addMeta k v => intro ctx m st; rfl
  | throwErr e => intro ctx m st; rfl
  | seq a b iha ihb =>
    intro ctx m st
    simp only [noImport, Bool.and_eq_true] at hni
    obtain ⟨ha, hb⟩ := hni
    simp only [runBody]
    cases hx : (runBody env ctx a m st).exc with
    | some e => simpa [hx] using iha ha ctx m st
    | none =>
      simp only [hx]
      exact (ihb hb ctx _ _).trans (iha ha ctx m st)
  | span name kwargs inner ih =>
    intro ctx m st
    simp only [noImport] at hni
    cases ctx with
    | none => simpa [runBody] using ih hni none kwargs st
    | some tp =>
      obtain ⟨tid, pid⟩ := tp
      simpa [runBody] using ih hni (some (tid, mintSpanId env.pfx st.scnt)) kwargs _
  | spanFromDict name kwargs carrier inner ih =>
    simp [noImport] at hni

/-! ### Step equations -/

theorem runBody_span_some (env : Env) (tid pid name : String) (kwargs : Dict)
    (inner : Body) (m : Dict) (st : St) :
    runBody env (some (tid, pid)) (.span name kwargs inner) m st =
      ⟨m, (scopeRun env tid kwargs inner st).recs
            ++ [scopeClose env name tid (some pid) kwargs inner st],
        { (scopeRun env tid kwargs inner st).st with
          tick := (scopeRun env tid kwargs inner st).st.tick + 1 },
        (scopeRun env tid kwargs inner st).exc⟩ := rfl

theorem runBody_sfd_valid (env : Env) (name : String) (kwargs : Dict)
    (carrier : List (String × String)) (inner : Body) (m : Dict) (st : St)
    (ctx : Option (String × String)) {v : String} {ta pa : List Char}
    (hc : dlookup "_trace" carrier = some v)
    (hs : pySplit ',' v.data = [ta, pa]) :
    runBody env ctx (.spanFromDict name kwargs carrier inner) m st =
      ⟨m, [],
        { (scopeRun env (String.mk ta) kwargs inner st).st with
          tick := (scopeRun env (String.mk ta) kwargs inner st).st.tick + 1
          emitted := (scopeRun env (String.mk ta) kwargs inner st).st.emitted
            ++ [(scopeRun env (String.mk ta) kwargs inner st).recs
                  ++ [scopeClose env name (String.mk ta) (some (String.mk pa))
                        kwargs inner st]] },
        (scopeRun env (String.mk ta) kwargs inner st).exc⟩ := by
  cases ctx <;> · simp only [runBody, hc, hs]; rfl

theorem runBody_sfd_malformed (env : Env) (name : String) (kwargs : Dict)
    (carrier : List (String × String)) (inner : Body) (m : Dict) (st : St)
    (ctx : Option (String × String)) {v : String}
    (hc : dlookup "_trace" carrier = some v)
    (hs : (pySplit ',' v.data).length ≠ 2) :
    runBody env ctx (.spanFromDict name kwargs carrier inner) m st =
      ⟨m, [], st, some "ValueError"⟩ := by
  cases ctx <;>
  · simp only [runBody, hc]
    rcases h : pySplit ',' v.data with _ | ⟨ta, _ | ⟨pa, _ | _⟩⟩ <;>
      first
      | rfl
      | (exact absurd (by rw [h]; rfl) hs)

theorem runTrace_go (env : Env) {chance : Option ℚ} {draw : ℚ} (tcnt : Nat)
    (name : String) (kwargs : Dict) (b : Body) (st : St)
    (h : skipTrace chance draw = false) :
    runTrace env chance draw tcnt name kwargs b st =
      ⟨errMeta (scopeRun env (mintTraceId env.pfx tcnt) kwargs b st),
        { (scopeRun env (mintTraceId env.pfx tcnt) kwargs b st).st with
          tick := (scopeRun env (mintTraceId env.pfx tcnt) kwargs b st).st.tick + 1
          emitted := (scopeRun env (mintTraceId env.pfx tcnt) kwargs b st).st.emitted
            ++ [(scopeRun env (mintTraceId env.pfx tcnt) kwargs b st).recs
                  ++ [scopeClose env name (mintTraceId env.pfx tcnt) none
                        kwargs b st]] },
        (scopeRun env (mintTraceId env.pfx tcnt) kwargs b st).exc⟩ := by
  simp only [runTrace, h]
  rfl

theorem runTrace_skip (env : Env) {chance : Option ℚ} {draw : ℚ} (tcnt : Nat)
    (name : String) (kwargs : Dict) (b : Body) (st : St)
    (h : skipTrace chance draw = true) :
    runTrace env chance draw tcnt name kwargs b st =
      ⟨(runBody env none b [] st).meta, (runBody env none b [] st).st,
        (runBody env none b [] st).exc⟩ := by
  simp [runTrace, h]

/-! ### Emission lemmas -/

/-- Every run only appends new deliveries, and every delivered list is
non-empty (a closing scope always appends its own record before its
`_emit`). -/
theorem emitted_nonempty (env : Env) (b : Body) :
    ∀ ctx m st, ∃ N, (runBody env ctx b m st).st.emitted = st.emitted ++ N
      ∧ ∀ l ∈ N, l ≠ [] := by
  induction b with
  | skip => intro ctx m st; exact ⟨[], by simp [runBody], by simp⟩
  | snap => intro ctx m st; exact ⟨[], by simp [runBody], by simp⟩
  | addMeta k v => intro ctx m st; exact ⟨[], by simp [runBody], by simp⟩
  | throwErr e => intro ctx m st; exact ⟨[], by simp [runBody], by simp⟩
  | seq a b iha ihb =>
    intro ctx m st
    simp only [runBody]
    cases hx : (runBody env ctx a m st).exc with
    | some e => simpa [hx] using iha ctx m st
    | none =>
      obtain ⟨Na, hNa, hga⟩ := iha ctx m st
      obtain ⟨Nb, hNb, hgb⟩ := ihb ctx (runBody env ctx a m st).meta
        (runBody env ctx a m st).st
      refine ⟨Na ++ Nb, ?_, ?_⟩
      · simp [hx, hNb, hNa]
      · intro l hl
        rcases List.mem_append.1 hl with h | h
        · exact hga l h
        · exact hgb l h
  | span name kwargs inner ih =>
    intro ctx m st
    cases ctx with
    | none => simpa [runBody] using ih none kwargs st
    | some tp =>
      obtain ⟨tid, pid⟩ := tp
      rw [runBody_span_some]
      simpa using ih (some (tid, mintSpanId env.pfx st.scnt)) kwargs (stepSt st)
  | spanFromDict name kwargs carrier inner ih =>
    intro ctx m st
    cases hc : dlookup "_trace" carrier with
    | none =>
      cases ctx <;> · simp only [runBody, hc]; exact ih _ [] st
    | some v =>
      by_cases hs : (pySplit ',' v.data).length = 2
      · rcases hsp : pySplit ',' v.data with _ | ⟨ta, _ | ⟨pa, _ | t⟩⟩ <;>
          rw [hsp] at hs <;> try simp at hs
        rw [runBody_sfd_valid env name kwargs carrier inner m st ctx hc hsp]
        obtain ⟨Ni, hNi, hgi⟩ :=
          ih (some (String.mk ta, mintSpanId env.pfx st.scnt)) kwargs (stepSt st)
        refine ⟨Ni ++ [(scopeRun env (String.mk ta) kwargs inner st).recs
          ++ [scopeClose env name (String.mk ta) (some (String.mk pa))
            kwargs inner st]], ?_, ?_⟩
        · show (scopeRun env (String.mk ta) kwargs inner st).st.emitted ++ _ = _
          rw [scopeRun, hNi]
          simp [stepSt]
        · intro l hl
          rcases List.mem_append.1 hl with h | h
          · exact hgi l h
          · simp only [List.mem_singleton] at h
            subst h
            simp
      · rw [runBody_sfd_malformed env name kwargs carrier inner m st ctx hc hs]
        exact ⟨[], by simp, by simp⟩

/-- Master structural lemma: provided caller metadata never shadows the
fixed schema keys, a run preserves schema-avoidance of the scope dict,
stamps every appended record with the active trace id, links every
appended record's parent to the enclosing span or to a later record, and
only ever delivers well-formed lists. -/
theorem runBody_good (env : Env) (b : Body) :
    ∀ ctx m st, bodyAvoids b = true → dictAvoids m = true →
      dictAvoids (runBody env ctx b m st).meta = true
      ∧ (∀ tid pid, ctx = some (tid, pid) →
          (∀ r ∈ (runBody env ctx b m st).recs,
            traceIdOf r = some (Val.str tid))
          ∧ linked pid (runBody env ctx b m st).recs)
      ∧ ∃ N, (runBody env ctx b m st).st.emitted = st.emitted ++ N
          ∧ ∀ l ∈ N, emitGood l := by
  induction b with
  | skip =>
    intro ctx m st _ hm
    exact ⟨hm, fun tid pid _ => ⟨by simp [runBody], trivial⟩,
      [], by simp [runBody], by simp⟩
  | snap =>
    intro ctx m st _ hm
    exact ⟨hm, fun tid pid _ => ⟨by simp [runBody], trivial⟩,
      [], by simp [runBody], by simp⟩
  | addMeta k v =>
    intro ctx m st hb hm
    refine ⟨?_, fun tid pid _ => ⟨by simp [runBody], trivial⟩,
      [], by simp [runBody], by simp⟩
    simp only [runBody, dictAvoids, List.all_cons, Bool.and_eq_true]
    exact ⟨by simpa [bodyAvoids] using hb, hm⟩
  | throwErr e =>
    intro ctx m st _ hm
    exact ⟨hm, fun tid pid _ => ⟨by simp [runBody], trivial⟩,
      [], by simp [runBody], by simp⟩
  | seq a b iha ihb =>
    intro ctx m st hb hm
    simp only [bodyAvoids, Bool.and_eq_true] at hb
    obtain ⟨Ha1, Ha2, Na, hNa, hga⟩ := iha ctx m st hb.1 hm
    simp only [runBody]
    cases hx : (runBody env ctx a m st).exc with
    | some e =>
      simp only [hx]
      exact ⟨Ha1, Ha2, Na, hNa, hga⟩
    | none =>
      obtain ⟨Hb1, Hb2, Nb, hNb, hgb⟩ := ihb ctx (runBody env ctx a m st).meta
        (runBody env ctx a m st).st hb.2 Ha1
      simp only [hx]
      refine ⟨Hb1, fun tid pid hctx => ?_, Na ++ Nb, ?_, ?_⟩
      · obtain ⟨Hau, Hal⟩ := Ha2 tid pid hctx
        obtain ⟨Hbu, Hbl⟩ := Hb2 tid pid hctx
        refine ⟨fun r hr => ?_, linked_append Hal Hbl⟩
        rcases List.mem_append.1 hr with h | h
        · exact Hau r h
        · exact Hbu r h
      · rw [hNb, hNa, List.append_assoc]
      · intro l hl
        rcases List.mem_append.1 hl with h | h
        · exact hga l h
        · exact hgb l h
  | span name kwargs inner ih =>
    intro ctx m st hb hm
    simp only [bodyAvoids, Bool.and_eq_true] at hb
    cases ctx with
    | none =>
      obtain ⟨H1, _, N, hN, hg⟩ := ih none kwargs st hb.2 hb.1
      simp only [runBody]
      exact ⟨hm, ⟨fun tid pid h => Option.noConfusion h, N, hN, hg⟩⟩
    | some tp =>
      obtain ⟨tid, pid⟩ := tp
      obtain ⟨H1, H2, N, hN, hg⟩ :=
        ih (some (tid, mintSpanId env.pfx st.scnt)) kwargs (stepSt st) hb.2 hb.1
      obtain ⟨Hu, Hl⟩ := H2 tid (mintSpanId env.pfx st.scnt) rfl
      rw [runBody_span_some]
      refine ⟨hm, fun tid' pid' hctx => ?_, N, ?_, hg⟩
      · injection hctx with hctx'
        injection hctx' with h1 h2
        subst h1; subst h2
        constructor
        · intro r hr
          rcases List.mem_append.1 hr with h | h
          · exact Hu r h
          · simp only [List.mem_singleton] at h
            subst h
            exact traceIdOf_closeRec H1
        · exact linked_snoc Hl (spanIdOf_closeRec H1) (parentOf_closeRec_some H1)
      · show (scopeRun env tid kwargs inner st).st.emitted = _
        rw [scopeRun, hN]
        rfl
  | spanFromDict name kwargs carrier inner ih =>
    intro ctx m st hb hm
    simp only [bodyAvoids, Bool.and_eq_true] at hb
    cases hc : dlookup "_trace" carrier with
    | none =>
      obtain ⟨H1, H2, N, hN, hg⟩ := ih ctx [] st hb.2 (by rfl)
      cases ctx <;>
      · simp only [runBody, hc]
        exact ⟨hm, fun tid pid h => H2 tid pid h, N, hN, hg⟩
    | some v =>
      by_cases hlen : (pySplit ',' v.data).length = 2
      · rcases hsp : pySplit ',' v.data with _ | ⟨ta, _ | ⟨pa, _ | t⟩⟩ <;>
          rw [hsp] at hlen <;> try simp at hlen
        obtain ⟨H1, H2, N, hN, hg⟩ :=
          ih (some (String.mk ta, mintSpanId env.pfx st.scnt)) kwargs
            (stepSt st) hb.2 hb.1
        obtain ⟨Hu, Hl⟩ := H2 (String.mk ta) (mintSpanId env.pfx st.scnt) rfl
        rw [runBody_sfd_valid env name kwargs carrier inner m st ctx hc hsp]
        refine ⟨hm, fun tid pid _ => ⟨by simp, trivial⟩,
          N ++ [(scopeRun env (String.mk ta) kwargs inner st).recs
            ++ [scopeClose env name (String.mk ta) (some (String.mk pa))
                  kwargs inner st]], ?_, ?_⟩
        · show (scopeRun env (String.mk ta) kwargs inner st).st.emitted ++ _ = _
          rw [scopeRun, hN]
          simp [stepSt]
        · intro l hl
          rcases List.mem_append.1 hl with h | h
          · exact hg l h
          · simp only [List.mem_singleton] at h
            subst h
            constructor
            · refine ⟨String.mk ta, fun r hr => ?_⟩
              rcases List.mem_append.1 hr with h | h
              · exact Hu r h
              · simp only [List.mem_singleton] at h
                subst h
                exact traceIdOf_closeRec H1
            · exact okChain_of_linked Hl (spanIdOf_closeRec H1)
      · rw [runBody_sfd_malformed env name kwargs carrier inner m st ctx hc hlen]
        exact ⟨hm, fun tid pid _ => ⟨by simp, trivial⟩, [], by simp, by simp⟩

/-! ### Split lemmas -/

theorem pySplit_no_sep {sep : Char} {l : List Char} (h : sep ∉ l) :
    pySplit sep l = [l] := by
  induction l with
  | nil => rfl
  | cons c t ih =>
    simp only [List.mem_cons, not_or] at h
    have hne : ¬c = sep := fun he => h.1 he.symm
    simp only [pySplit, if_neg hne, ih h.2]

theorem pySplit_sep_append {sep : Char} {a : List Char} (b : List Char)
    (h : sep ∉ a) : pySplit sep (a ++ sep :: b) = a :: pySplit sep b := by
  induction a with
  | nil => simp [pySplit]
  | cons c t ih =>
    simp only [List.mem_cons, not_or] at h
    have hne : ¬c = sep := fun he => h.1 he.symm
    simp only [List.cons_append, pySplit, if_neg hne, List.append_eq, ih h.2]

/-- Splitting the exported carrier value recovers both ids when neither
contains the comma delimiter. -/
theorem pySplit_carrier {tid sid : String} (h1 : ',' ∉ tid.data)
    (h2 : ',' ∉ sid.data) :
    pySplit ',' (tid ++ "," ++ sid).data = [tid.data, sid.data] := by
  have hd : (tid ++ "," ++ sid).data = tid.data ++ ',' :: sid.data := by
    rw [String.data_append, String.data_append, List.append_assoc]
    rfl
  rw [hd, pySplit_sep_append _ h1, pySplit_no_sep h2]

/-! ### Claim C1 -/

theorem emitGood_claim {l : List Dict} (h : emitGood l) :
    (∀ root, l.getLast? = some root → ∀ r ∈ l, traceIdOf r = traceIdOf root)
      ∧ okChain l := by
  obtain ⟨⟨t, hu⟩, hc⟩ := h
  refine ⟨fun root hroot r hr => ?_, hc⟩
  have hrm : root ∈ l := List.mem_of_mem_getLast? (by rw [hroot]; rfl)
  rw [hu r hr, hu root hrm]

/-- C1 (counterexample): a trace containing one nested span is delivered
as `[child, root]` — the child's `trace.parent_id` names the root, which
appears LATER in the list, not earlier, so the claimed invariant fails
on the very first nontrivial trace. -/
theorem c1_counterexample :
    ((runTrace env0 none 0 0 "t" [] (Body.span "s" [] Body.skip) st0).st.emitted.all
      fun l => okEarlier [] l) = false := by decide

/-- C1 (amended): in every delivered list, every span's trace id equals
the trace id of the LAST span (the delivery's root), and every span
other than the last has a `trace.parent_id` naming a span that appears
LATER in the list — children close, and hence append, before their
parents, so the root closes the list.  Caller metadata is assumed not to
shadow the fixed schema keys. -/
theorem c1_trace_linkage (env : Env) (chance : Option ℚ) (draw : ℚ)
    (tcnt : Nat) (name : String) (kwargs : Dict) (b : Body) (st : St)
    (hb : bodyAvoids b = true) (hk : dictAvoids kwargs = true) :
    ∃ N, (runTrace env chance draw tcnt name kwargs b st).st.emitted
        = st.emitted ++ N
      ∧ ∀ l ∈ N,
          (∀ root, l.getLast? = some root →
            ∀ r ∈ l, traceIdOf r = traceIdOf root)
          ∧ okChain l := by
  cases hskip : skipTrace chance draw with
  | true =>
    rw [runTrace_skip env tcnt name kwargs b st hskip]
    obtain ⟨_, _, N, hN, hg⟩ := runBody_good env b none [] st hb rfl
    exact ⟨N, hN, fun l hl => emitGood_claim (hg l hl)⟩
  | false =>
    rw [runTrace_go env tcnt name kwargs b st hskip]
    obtain ⟨H1, H2, N, hN, hg⟩ := runBody_good env b
      (some (mintTraceId env.pfx tcnt, mintSpanId env.pfx st.scnt)) kwargs
      (stepSt st) hb hk
    obtain ⟨Hu, Hl⟩ := H2 (mintTraceId env.pfx tcnt) (mintSpanId env.pfx st.scnt) rfl
    refine ⟨N ++ [(scopeRun env (mintTraceId env.pfx tcnt) kwargs b st).recs
      ++ [scopeClose env name (mintTraceId env.pfx tcnt) none kwargs b st]],
      ?_, ?_⟩
    · show (scopeRun env (mintTraceId env.pfx tcnt) kwargs b st).st.emitted ++ _ = _
      rw [scopeRun, hN]
      simp [stepSt]
    · intro l hl
      rcases List.mem_append.1 hl with h | h
      · exact emitGood_claim (hg l h)
      · simp only [List.mem_singleton] at h
        subst h
        refine emitGood_claim ⟨⟨mintTraceId env.pfx tcnt, fun r hr => ?_⟩, ?_⟩
        · rcases List.mem_append.1 hr with h | h
          · exact Hu r h
          · simp only [List.mem_singleton] at h
            subst h
            exact traceIdOf_closeRec H1
        · exact okChain_of_linked Hl (spanIdOf_closeRec H1)

/-- Witness for the amended C1 at a concrete trace containing one nested
span. -/
theorem c1_trace_linkage_witness :
    ∃ N, (runTrace env0 none 0 0 "t" [] (Body.span "s" [] Body.skip) st0).st.emitted
        = st0.emitted ++ N
      ∧ ∀ l ∈ N,
          (∀ root, l.getLast? = some root →
            ∀ r ∈ l, traceIdOf r = traceIdOf root)
          ∧ okChain l :=
  c1_trace_linkage env0 none 0 0 "t" [] (Body.span "s" [] Body.skip) st0
    (by decide) (by decide)

/-! ### Claim C2 -/

set_option maxRecDepth 10000 in
/-- C2 (counterexample): the capacity test runs BEFORE the extend, so a
batch arriving while the buffer holds 999 spans is appended whole: after
notifying a 999-span batch and then a 2-span batch the buffer holds
1001 spans, exceeding the claimed 1000-span cap (and retaining more than
the first 1000 spans). -/
theorem c2_counterexample :
    (List.foldl addToBuffer [] [List.replicate 999 ([] : Dict), [[], []]]).length
        = 1001
      ∧ 1000 < 1001 := by
  constructor
  · show (addToBuffer (addToBuffer [] (List.replicate 999 ([] : Dict)))
      [[], []]).length = 1001
    unfold addToBuffer
    simp
  · decide

/-- C2 (amended): `notify` appends the WHOLE incoming batch whenever the
buffer currently holds fewer than 1000 spans and drops the whole batch
otherwise; consequently the buffer never holds more than `999 + k` spans
where `k` bounds the size of a single delivered batch (it can exceed
1000 by up to one batch). -/
theorem c2_buffer_bound (bs : List (List Dict)) (k : Nat)
    (h : ∀ x ∈ bs, x.length ≤ k) :
    (List.foldl addToBuffer [] bs).length ≤ 999 + k
      ∧ ∀ buffer spans : List Dict, ¬buffer.length < 1000 →
          addToBuffer buffer spans = buffer := by
  have main : ∀ (l : List (List Dict)) (init : List Dict),
      init.length ≤ 999 + k → (∀ x ∈ l, x.length ≤ k) →
      (List.foldl addToBuffer init l).length ≤ 999 + k := by
    intro l
    induction l with
    | nil => intro init hi _; simpa using hi
    | cons x t ih =>
      intro init hi hx
      simp only [List.foldl_cons]
      refine ih (addToBuffer init x) ?_ fun y hy => hx y (List.mem_cons_of_mem _ hy)
      unfold addToBuffer
      by_cases hl : init.length < 1000
      · rw [if_pos hl, List.length_append]
        have h1 : init.length ≤ 999 := Nat.lt_succ_iff.mp hl
        have h2 : x.length ≤ k := hx x (List.mem_cons_self _ _)
        omega
      · rw [if_neg hl]
        exact hi
  refine ⟨main bs [] (by simp) h, fun buffer spans hl => ?_⟩
  unfold addToBuffer
  rw [if_neg hl]

/-- Witness for the amended C2 on two concrete batches of sizes 2 and
1. -/
theorem c2_buffer_bound_witness :
    (∀ x ∈ ([[[], []], [[]]] : List (List Dict)), x.length ≤ 2)
      ∧ ((List.foldl addToBuffer [] ([[[], []], [[]]] : List (List Dict))).length
            ≤ 999 + 2
        ∧ ∀ buffer spans : List Dict, ¬buffer.length < 1000 →
            addToBuffer buffer spans = buffer) :=
  ⟨by decide, c2_buffer_bound [[[], []], [[]]] 2 (by decide)⟩

/-! ### Claim C3 -/

/-- C3 (counterexample): importing a carrier whose `"_trace"` value has
no comma raises a `ValueError` to the caller, while the same import with
the key absent returns normally — so a malformed value is NOT treated
like an absent key and the error is not swallowed. -/
theorem c3_counterexample :
    (runBody env0 none (Body.spanFromDict "c" [] [("_trace", "abc")] Body.skip)
        [] st0).exc = some "ValueError"
      ∧ (runBody env0 none (Body.spanFromDict "c" [] [] Body.skip)
        [] st0).exc = none := by decide

/-- C3 (amended): when the `"_trace"` value does not split into exactly
two comma-separated parts, `span_from_dict` raises a `ValueError` to the
caller before doing anything: no scope runs, no span is recorded,
nothing is emitted, the state is untouched.  Only ABSENCE of the key
gives the fail-closed, treat-as-no-parent behavior. -/
theorem c3_malformed_carrier_raises (env : Env) (ctx : Option (String × String))
    (name : String) (kwargs : Dict) (carrier : List (String × String))
    (inner : Body) (m : Dict) (st : St) (v : String)
    (hc : dlookup "_trace" carrier = some v)
    (hs : (pySplit ',' v.data).length ≠ 2) :
    runBody env ctx (.spanFromDict name kwargs carrier inner) m st
      = ⟨m, [], st, some "ValueError"⟩ :=
  runBody_sfd_malformed env name kwargs carrier inner m st ctx hc hs

/-- Witness for the amended C3 at the comma-free value `"abc"`. -/
theorem c3_malformed_carrier_raises_witness :
    (pySplit ',' ("abc" : String).data).length ≠ 2
      ∧ runBody env0 none (Body.spanFromDict "c" [] [("_trace", "abc")] Body.skip)
          [] st0 = ⟨[], [], st0, some "ValueError"⟩ :=
  ⟨by decide,
    c3_malformed_carrier_raises env0 none "c" [] [("_trace", "abc")] Body.skip
      [] st0 "abc" rfl (by decide)⟩

/-! ### Claim C4 -/

/-- C4: an exception raised inside a traced or spanned body is recorded
under the `"error"` key of the span record that the closing scope still
appends (for a trace, inside the delivered list; for a span, onto the
trace's children list), and the same exception is re-raised to the
caller unchanged. -/
theorem c4_error_recorded (env : Env) :
    (∀ (chance : Option ℚ) (draw : ℚ) (tcnt : Nat) (name : String)
        (kwargs : Dict) (b : Body) (st : St) (e : String),
      skipTrace chance draw = false →
      (scopeRun env (mintTraceId env.pfx tcnt) kwargs b st).exc = some e →
      (runTrace env chance draw tcnt name kwargs b st).exc = some e
      ∧ ∃ pre R root,
          (runTrace env chance draw tcnt name kwargs b st).st.emitted
            = pre ++ [R ++ [root]]
        ∧ dlookup "error" root = some (Val.str e))
    ∧ (∀ (tid pid name : String) (kwargs : Dict) (inner : Body) (m : Dict)
        (st : St) (e : String),
      (scopeRun env tid kwargs inner st).exc = some e →
      (runBody env (some (tid, pid)) (.span name kwargs inner) m st).exc = some e
      ∧ ∃ R c,
          (runBody env (some (tid, pid)) (.span name kwargs inner) m st).recs
            = R ++ [c]
        ∧ dlookup "error" c = some (Val.str e)) := by
  constructor
  · intro chance draw tcnt name kwargs b st e hskip hexc
    rw [runTrace_go env tcnt name kwargs b st hskip]
    refine ⟨hexc, (scopeRun env (mintTraceId env.pfx tcnt) kwargs b st).st.emitted,
      (scopeRun env (mintTraceId env.pfx tcnt) kwargs b st).recs,
      scopeClose env name (mintTraceId env.pfx tcnt) none kwargs b st,
      rfl, ?_⟩
    exact dlookup_error_closeRec hexc
  · intro tid pid name kwargs inner m st e hexc
    rw [runBody_span_some]
    refine ⟨hexc, (scopeRun env tid kwargs inner st).recs,
      scopeClose env name tid (some pid) kwargs inner st, rfl, ?_⟩
    exact dlookup_error_closeRec hexc

/-- Witness for C4: a trace whose body raises `boom`, and a span whose
body raises `boom`, each at concrete inputs. -/
theorem c4_error_recorded_witness :
    ((runTrace env0 none 0 0 "t" [] (Body.throwErr "boom") st0).exc = some "boom"
      ∧ ∃ pre R root,
          (runTrace env0 none 0 0 "t" [] (Body.throwErr "boom") st0).st.emitted
            = pre ++ [R ++ [root]]
        ∧ dlookup "error" root = some (Val.str "boom"))
    ∧ ((runBody env0 (some ("T", "P")) (Body.span "s" [] (Body.throwErr "boom"))
          [] st0).exc = some "boom"
      ∧ ∃ R c,
          (runBody env0 (some ("T", "P")) (Body.span "s" [] (Body.throwErr "boom"))
            [] st0).recs = R ++ [c]
        ∧ dlookup "error" c = some (Val.str "boom")) :=
  ⟨(c4_error_recorded env0).1 none 0 0 "t" [] (Body.throwErr "boom") st0 "boom"
      rfl rfl,
    (c4_error_recorded env0).2 "T" "P" "s" [] (Body.throwErr "boom") [] st0 "boom"
      rfl⟩

/-! ### Claim C5 -/

/-- C5: when `trace_chance` is set and the draw fails
(`random() > trace_chance`), the whole trace call degrades to running
the body with an empty yielded metadata dict and NO active context: no
ids are minted, nothing is recorded, no receiver is notified, and every
plain span opened inside is a no-op (provided the body does not import a
remote parent, which needs no active context). -/
theorem c5_unsampled_noop (env : Env) (c draw : ℚ) (tcnt : Nat)
    (name : String) (kwargs : Dict) (b : Body) (st : St)
    (hc : c < draw) (hni : noImport b = true) :
    runTrace env (some c) draw tcnt name kwargs b st
        = ⟨(runBody env none b [] st).meta, (runBody env none b [] st).st,
            (runBody env none b [] st).exc⟩
      ∧ (runBody env none b [] st).st.scnt = st.scnt
      ∧ (runBody env none b [] st).st.emitted = st.emitted
      ∧ (runBody env none b [] st).recs = [] := by
  have hskip : skipTrace (some c) draw = true := by
    simp [skipTrace, hc]
  exact ⟨runTrace_skip env tcnt name kwargs b st hskip,
    (state_frozen_of_noImport_none env b hni [] st).1,
    (state_frozen_of_noImport_none env b hni [] st).2.2,
    recs_nil_of_ctx_none env b [] st⟩

/-- Witness for C5 with chance 0, draw 1, and a body opening one nested
span. -/
theorem c5_unsampled_noop_witness :
    ((0 : ℚ) < 1 ∧ noImport (Body.span "s" [] Body.snap) = true)
    ∧ (runTrace env0 (some 0) 1 0 "t" [] (Body.span "s" [] Body.snap) st0
        = ⟨(runBody env0 none (Body.span "s" [] Body.snap) [] st0).meta,
            (runBody env0 none (Body.span "s" [] Body.snap) [] st0).st,
            (runBody env0 none (Body.span "s" [] Body.snap) [] st0).exc⟩
      ∧ (runBody env0 none (Body.span "s" [] Body.snap) [] st0).st.scnt = st0.scnt
      ∧ (runBody env0 none (Body.span "s" [] Body.snap) [] st0).st.emitted
          = st0.emitted
      ∧ (runBody env0 none (Body.span "s" [] Body.snap) [] st0).recs = []) :=
  ⟨⟨by decide, by decide⟩,
    c5_unsampled_noop env0 0 1 0 "t" [] (Body.span "s" [] Body.snap) st0
      (by decide) (by decide)⟩

/-! ### Claim C6 -/

/-- C6: feeding the carrier produced by `span_to_dict` on an active
context `(tid, sid)` into `span_from_dict` yields a freshly delivered
list whose final record is a child span carrying the exported trace id
as its `trace.trace_id` and the exported span id as its
`trace.parent_id` (round-trip of the propagation codec).  The ids are
assumed comma-free, as every id the tracer mints from a comma-free
prefix is, and caller metadata does not shadow schema keys. -/
theorem c6_propagation_roundtrip (env : Env) (ctx : Option (String × String))
    (tid sid name : String) (kwargs : Dict) (inner : Body) (m : Dict) (st : St)
    (h1 : ',' ∉ tid.data) (h2 : ',' ∉ sid.data)
    (hb : bodyAvoids inner = true) (hk : dictAvoids kwargs = true) :
    ∃ R child,
      (runBody env ctx
          (.spanFromDict name kwargs (spanToDict (some (tid, sid))) inner)
          m st).st.emitted.getLast? = some (R ++ [child])
      ∧ traceIdOf child = some (Val.str tid)
      ∧ parentOf child = some (Val.str sid)
      ∧ spanIdOf child = some (Val.str (mintSpanId env.pfx st.scnt))
      ∧ nameOf child = some (Val.str name) := by
  have hmk : ∀ s : String, String.mk s.data = s := fun s => by cases s; rfl
  have hc : dlookup "_trace" (spanToDict (some (tid, sid)))
      = some (tid ++ "," ++ sid) := rfl
  have hsp : pySplit ',' (tid ++ "," ++ sid).data = [tid.data, sid.data] :=
    pySplit_carrier h1 h2
  rw [runBody_sfd_valid env name kwargs _ inner m st ctx hc hsp, hmk tid, hmk sid]
  have H := runBody_good env inner (some (tid, mintSpanId env.pfx st.scnt))
    kwargs (stepSt st) hb hk
  refine ⟨(scopeRun env tid kwargs inner st).recs,
    scopeClose env name tid (some sid) kwargs inner st, by simp, ?_, ?_, ?_, ?_⟩
  · exact traceIdOf_closeRec H.1
  · exact parentOf_closeRec_some H.1
  · exact spanIdOf_closeRec H.1
  · exact nameOf_closeRec H.1

/-- Witness for C6 at ids `T`/`S` and a trivial imported body. -/
theorem c6_propagation_roundtrip_witness :
    (',' ∉ ("T" : String).data ∧ ',' ∉ ("S" : String).data)
    ∧ ∃ R child,
        (runBody env0 none
            (.spanFromDict "child" [] (spanToDict (some ("T", "S"))) Body.skip)
            [] st0).st.emitted.getLast? = some (R ++ [child])
        ∧ traceIdOf child = some (Val.str "T")
        ∧ parentOf child = some (Val.str "S")
        ∧ spanIdOf child = some (Val.str (mintSpanId env0.pfx st0.scnt))
        ∧ nameOf child = some (Val.str "child") :=
  ⟨⟨by decide, by decide⟩,
    c6_propagation_roundtrip env0 none "T" "S" "child" [] Body.skip [] st0
      (by decide) (by decide) (by decide) (by decide)⟩

/-! ### Claim C7 -/

/-- C7 (counterexample): a span opened with no explicit parent and no
active context yields the CALLER-SUPPLIED metadata map, not an empty
map — the body observes `{"a": "b"}`. -/
theorem c7_counterexample :
    (runBody env0 none (Body.span "s" [("a", Val.str "b")] Body.snap)
        [] st0).st.obs = [[("a", Val.str "b")]]
      ∧ [("a", Val.str "b")] ≠ ([] : Dict) := by decide

/-- C7 (amended): a span opened with no explicit parent and no active
context yields the caller-supplied kwargs map (unmodified and unused)
and records nothing: no id is minted, nothing is appended, nothing is
emitted (when the body does not import).  `span_to_dict` outside any
trace returns the empty carrier, and `span_from_dict` on that empty
carrier yields an EMPTY metadata map (the kwargs are discarded here) and
produces no span of its own. -/
theorem c7_no_parent_noop (env : Env) (name : String) (kwargs m : Dict)
    (inner : Body) (st : St) (hni : noImport inner = true) :
    ((runBody env none (Body.span name kwargs inner) m st).meta = m
      ∧ (runBody env none (Body.span name kwargs inner) m st).recs = []
      ∧ (runBody env none (Body.span name kwargs inner) m st).st.scnt = st.scnt
      ∧ (runBody env none (Body.span name kwargs inner) m st).st.emitted
          = st.emitted)
    ∧ (runBody env none (Body.span name kwargs Body.snap) m st).st.obs
        = st.obs ++ [kwargs]
    ∧ spanToDict none = []
    ∧ ((runBody env none (Body.spanFromDict name kwargs [] inner) m st).recs = []
      ∧ (runBody env none (Body.spanFromDict name kwargs [] inner) m st).st.scnt
          = st.scnt
      ∧ (runBody env none (Body.spanFromDict name kwargs [] inner) m st).st.emitted
          = st.emitted)
    ∧ (runBody env none (Body.spanFromDict name kwargs [] Body.snap) m st).st.obs
        = st.obs ++ [[]] := by
  have hspan : noImport (Body.span name kwargs inner) = true := hni
  have hfrozen := state_frozen_of_noImport_none env _ hspan m st
  have hfrozen2 := state_frozen_of_noImport_none env inner hni [] st
  refine ⟨⟨rfl, recs_nil_of_ctx_none env (Body.span name kwargs inner) m st,
      hfrozen.1, hfrozen.2.2⟩, rfl, rfl, ⟨?_, ?_, ?_⟩, rfl⟩
  · show (runBody env none inner [] st).recs = []
    exact recs_nil_of_ctx_none env inner [] st
  · exact hfrozen2.1
  · exact hfrozen2.2.2

/-- Witness for the amended C7 with one kwargs entry and a body opening
a nested span. -/
theorem c7_no_parent_noop_witness :
    noImport (Body.span "t" [] Body.snap) = true
    ∧ (((runBody env0 none (Body.span "s" [("a", Val.str "b")]
            (Body.span "t" [] Body.snap)) [] st0).meta = []
      ∧ (runBody env0 none (Body.span "s" [("a", Val.str "b")]
            (Body.span "t" [] Body.snap)) [] st0).recs = []
      ∧ (runBody env0 none (Body.span "s" [("a", Val.str "b")]
            (Body.span "t" [] Body.snap)) [] st0).st.scnt = st0.scnt
      ∧ (runBody env0 none (Body.span "s" [("a", Val.str "b")]
            (Body.span "t" [] Body.snap)) [] st0).st.emitted = st0.emitted)
    ∧ (runBody env0 none (Body.span "s" [("a", Val.str "b")] Body.snap)
          [] st0).st.obs = st0.obs ++ [[("a", Val.str "b")]]
    ∧ spanToDict none = []
    ∧ ((runBody env0 none (Body.spanFromDict "s" [("a", Val.str "b")] []
            (Body.span "t" [] Body.snap)) [] st0).recs = []
      ∧ (runBody env0 none (Body.spanFromDict "s" [("a", Val.str "b")] []
            (Body.span "t" [] Body.snap)) [] st0).st.scnt = st0.scnt
      ∧ (runBody env0 none (Body.spanFromDict "s" [("a", Val.str "b")] []
            (Body.span "t" [] Body.snap)) [] st0).st.emitted = st0.emitted)
    ∧ (runBody env0 none (Body.spanFromDict "s" [("a", Val.str "b")] []
          Body.snap) [] st0).st.obs = st0.obs ++ [[]]) :=
  ⟨by decide,
    c7_no_parent_noop env0 "s" [("a", Val.str "b")] []
      (Body.span "t" [] Body.snap) st0 (by decide)⟩

/-! ### Claim C8 -/

theorem mapO_mem {α β : Type} {f : α → Option β} :
    ∀ {l : List α} {bs : List β}, mapO f l = some bs →
      ∀ b ∈ bs, ∃ a ∈ l, f a = some b := by
  intro l
  induction l with
  | nil =>
    intro bs h b hb
    unfold mapO at h
    injection h with h'
    subst h'
    exact absurd hb (by simp)
  | cons a t ih =>
    intro bs h b hb
    unfold mapO at h
    cases hfa : f a with
    | none => rw [hfa] at h; exact Option.noConfusion h
    | some b0 =>
      cases hmt : mapO f t with
      | none => rw [hfa, hmt] at h; exact Option.noConfusion h
      | some bs0 =>
        rw [hfa, hmt] at h
        injection h with h'
        subst h'
        rcases List.mem_cons.1 hb with h | h
        · exact ⟨a, List.mem_cons_self _ _, h ▸ hfa⟩
        · obtain ⟨a2, ha2, hfa2⟩ := ih hmt b h
          exact ⟨a2, List.mem_cons_of_mem _ ha2, hfa2⟩

theorem encodeSpanRec_tg {iso : ℚ → String} {tg : Option (String × String × ℤ)}
    {d : Dict} {r : LogRec} (h : encodeSpanRec iso tg d = some r) :
    r.tg = tg := by
  unfold encodeSpanRec at h
  split at h
  · injection h with h'
    subst h'
    rfl
  · exact Option.noConfusion h

theorem traceGroupOf_isSome {iso : ℚ → String} {last : Dict}
    {tg : Option (String × String × ℤ)} (h : traceGroupOf iso last = some tg) :
    tg.isSome ↔ dlookup "trace.parent_id" last = none := by
  unfold traceGroupOf at h
  by_cases hp : (dlookup "trace.parent_id" last).isSome
  · rw [if_pos hp] at h
    injection h with h'
    subst h'
    constructor
    · intro h1; exact absurd h1 (by simp)
    · intro h2; rw [h2] at hp; exact absurd hp (by simp)
  · rw [if_neg hp] at h
    have hpn : dlookup "trace.parent_id" last = none :=
      Option.not_isSome_iff_eq_none.mp hp
    split at h
    · injection h with h'
      subst h'
      simp [hpn]
    · exact Option.noConfusion h

/-- C8 (counterexample): the last span of the delivered list IS the
claim's "group root" (its parent id names no span in the list), yet
`encode_trace` attaches no trace-group fields, because the code only
tests for the ABSENCE of the `trace.parent_id` key on the last span. -/
theorem c8_counterexample :
    claimRootB [c8cexSpan] = true
      ∧ (encodeTrace iso0 [c8cexSpan]).map (fun rs => rs.map LogRec.tg)
          = some [none] := by decide

/-- C8 (amended): `encode_trace` attaches the trace-group summary to
every emitted record exactly when the LAST span of the list has no
`trace.parent_id` key at all; a last span whose parent id merely names
no span in the list does not count. -/
theorem c8_trace_group_condition (iso : ℚ → String) (spans : List Dict)
    (last : Dict) (rs : List LogRec) (hlast : spans.getLast? = some last)
    (henc : encodeTrace iso spans = some rs) :
    ∃ tg, traceGroupOf iso last = some tg
      ∧ (∀ r ∈ rs, r.tg = tg)
      ∧ (tg.isSome ↔ dlookup "trace.parent_id" last = none) := by
  unfold encodeTrace at henc
  rw [hlast] at henc
  simp only at henc
  cases htg : traceGroupOf iso last with
  | none => rw [htg] at henc; simp only at henc; exact Option.noConfusion henc
  | some tg =>
    rw [htg] at henc
    simp only at henc
    refine ⟨tg, rfl, fun r hr => ?_, traceGroupOf_isSome htg⟩
    obtain ⟨d, _, hd⟩ := mapO_mem henc r hr
    exact encodeSpanRec_tg hd

/-- Witness for the amended C8 on the concrete root-only list. -/
theorem c8_trace_group_condition_witness :
    ([c8rootSpan].getLast? = some c8rootSpan)
    ∧ (encodeTrace iso0 [c8rootSpan] = some [c8rootRec])
    ∧ ∃ tg, traceGroupOf iso0 c8rootSpan = some tg
      ∧ (∀ r ∈ [c8rootRec], r.tg = tg)
      ∧ (tg.isSome ↔ dlookup "trace.parent_id" c8rootSpan = none) :=
  ⟨rfl, rfl,
    c8_trace_group_condition iso0 [c8rootSpan] c8rootSpan [c8rootRec] rfl rfl⟩

/-! ### Claim C9 -/

/-- C9: (i) every list handed to the receivers is non-empty; (ii) a
sampled trace ends its run by delivering, last, a list whose final
record is the trace's own root span (carrying the trace's name, the span
id minted at entry, and no parent); (iii) an import with a valid carrier
delivers, last, a list whose final record is the imported child span it
created (carrying its name, the span id minted at entry, and the
carrier's parent id); (iv) a plain nested span never triggers a delivery
itself (shown for non-importing bodies, whose deliveries are exactly the
importing scopes').  Schema-avoidance hypotheses as in C1. -/
theorem c9_emission_discipline (env : Env) :
    (∀ ctx b m st, ∃ N,
        (runBody env ctx b m st).st.emitted = st.emitted ++ N
        ∧ ∀ l ∈ N, l ≠ [])
    ∧ (∀ (chance : Option ℚ) (draw : ℚ) (tcnt : Nat) (name : String)
          (kwargs : Dict) (b : Body) (st : St),
        skipTrace chance draw = false → bodyAvoids b = true →
        dictAvoids kwargs = true →
        dlookup "trace.parent_id" env.meta0 = none →
        ∃ N R root,
          (runTrace env chance draw tcnt name kwargs b st).st.emitted
              = st.emitted ++ N ++ [R ++ [root]]
          ∧ nameOf root = some (Val.str name)
          ∧ spanIdOf root = some (Val.str (mintSpanId env.pfx st.scnt))
          ∧ parentOf root = none)
    ∧ (∀ ctx (name : String) (kwargs : Dict)
          (carrier : List (String × String)) (inner : Body) (m : Dict)
          (st : St) (v : String) (ta pa : List Char),
        bodyAvoids inner = true → dictAvoids kwargs = true →
        dlookup "_trace" carrier = some v → pySplit ',' v.data = [ta, pa] →
        ∃ R child,
          (runBody env ctx (.spanFromDict name kwargs carrier inner)
              m st).st.emitted.getLast? = some (R ++ [child])
          ∧ nameOf child = some (Val.str name)
          ∧ spanIdOf child = some (Val.str (mintSpanId env.pfx st.scnt))
          ∧ parentOf child = some (Val.str (String.mk pa)))
    ∧ (∀ ctx (name : String) (kwargs : Dict) (inner : Body) (m : Dict)
          (st : St), noImport inner = true →
        (runBody env ctx (.span name kwargs inner) m st).st.emitted
          = st.emitted) := by
  refine ⟨fun ctx b m st => emitted_nonempty env b ctx m st, ?_, ?_, ?_⟩
  · intro chance draw tcnt name kwargs b st hskip hb hk hm0
    rw [runTrace_go env tcnt name kwargs b st hskip]
    obtain ⟨H1, _, N, hN, _⟩ := runBody_good env b
      (some (mintTraceId env.pfx tcnt, mintSpanId env.pfx st.scnt)) kwargs
      (stepSt st) hb hk
    refine ⟨N, (scopeRun env (mintTraceId env.pfx tcnt) kwargs b st).recs,
      scopeClose env name (mintTraceId env.pfx tcnt) none kwargs b st,
      ?_, nameOf_closeRec H1, spanIdOf_closeRec H1, ?_⟩
    · show (scopeRun env (mintTraceId env.pfx tcnt) kwargs b st).st.emitted ++ _ = _
      rw [scopeRun, hN]
      simp [stepSt]
    · exact (parentOf_closeRec_none H1).trans hm0
  · intro ctx name kwargs carrier inner m st v ta pa hb hk hc hsp
    obtain H := runBody_good env inner
      (some (String.mk ta, mintSpanId env.pfx st.scnt)) kwargs (stepSt st) hb hk
    rw [runBody_sfd_valid env name kwargs carrier inner m st ctx hc hsp]
    exact ⟨(scopeRun env (String.mk ta) kwargs inner st).recs,
      scopeClose env name (String.mk ta) (some (String.mk pa)) kwargs inner st,
      by simp, nameOf_closeRec H.1, spanIdOf_closeRec H.1,
      parentOf_closeRec_some H.1⟩
  · intro ctx name kwargs inner m st hni
    exact emitted_frozen_of_noImport env (Body.span name kwargs inner) hni ctx m st

/-- Witness for C9: each part instantiated at concrete inputs. -/
theorem c9_emission_discipline_witness :
    (∃ N, (runBody env0 none Body.skip [] st0).st.emitted = st0.emitted ++ N
      ∧ ∀ l ∈ N, l ≠ [])
    ∧ (∃ N R root,
        (runTrace env0 none 0 0 "t" [] (Body.span "s" [] Body.skip) st0).st.emitted
            = st0.emitted ++ N ++ [R ++ [root]]
        ∧ nameOf root = some (Val.str "t")
        ∧ spanIdOf root = some (Val.str (mintSpanId env0.pfx st0.scnt))
        ∧ parentOf root = none)
    ∧ (∃ R child,
        (runBody env0 none
            (.spanFromDict "child" [] [("_trace", "T,S")] Body.skip)
            [] st0).st.emitted.getLast? = some (R ++ [child])
        ∧ nameOf child = some (Val.str "child")
        ∧ spanIdOf child = some (Val.str (mintSpanId env0.pfx st0.scnt))
        ∧ parentOf child = some (Val.str (String.mk ['S'])))
    ∧ (runBody env0 none (Body.span "s" [] Body.snap) [] st0).st.emitted
        = st0.emitted :=
  ⟨(c9_emission_discipline env0).1 none Body.skip [] st0,
    (c9_emission_discipline env0).2.1 none 0 0 "t" [] (Body.span "s" [] Body.skip)
      st0 rfl (by decide) (by decide) rfl,
    (c9_emission_discipline env0).2.2.1 none "child" [] [("_trace", "T,S")]
      Body.skip [] st0 "T,S" ['T'] ['S'] (by decide) (by decide) rfl (by decide),
    (c9_emission_discipline env0).2.2.2 none "s" [] Body.snap [] st0 (by decide)⟩

/-! ### Claim C10 -/

theorem dlookup_filter_self {α : Type} (k : String) (d : List (String × α)) :
    dlookup k (d.filter fun p => !(p.1 == k)) = none := by
  induction d with
  | nil => rfl
  | cons p t ih =>
    obtain ⟨a, v⟩ := p
    by_cases ha : a = k
    · simp only [List.filter, ha]
      simpa using ih
    · simp only [List.filter]
      rw [show (((a, v).1 == k) : Bool) = false by simpa using ha]
      simpa [dlookup, ha] using ih

theorem dlookup_filter_other {α : Type} {q k : String} (h : q ≠ k)
    (d : List (String × α)) :
    dlookup q (d.filter fun p => !(p.1 == k)) = dlookup q d := by
  induction d with
  | nil => rfl
  | cons p t ih =>
    obtain ⟨a, v⟩ := p
    by_cases ha : a = k
    · subst ha
      simp only [List.filter]
      rw [show (((a, v).1 == a) : Bool) = true by simp]
      simp only [Bool.not_true]
      rw [ih]
      simp only [dlookup]
      rw [if_neg fun he : a = q => h he.symm]
    · simp only [List.filter]
      rw [show (((a, v).1 == k) : Bool) = false by simpa using ha]
      simp only [Bool.not_false]
      simp only [dlookup]
      by_cases haq : a = q
      · simp [haq]
      · simp [haq, ih]

/-- C10: one export cycle pops `"time"` from every buffered span dict in
place; the payload's `"data"` entries alias the very same mutated dicts,
so after the cycle every exported span record has lost its `"time"` key
while every other key's value is unchanged, and the payload's top-level
`"time"` string is the string form of the popped value. -/
theorem c10_export_pops_time (buf : List Dict)
    (h : ∀ e ∈ buf, (dlookup "time" e).isSome) :
    ∃ items, exportCycle buf = some (items, items.map Prod.fst)
      ∧ List.Forall₂ (fun (e : Dict) (it : Dict × String) =>
          dlookup "time" it.1 = none
          ∧ (∀ q, q ≠ "time" → dlookup q it.1 = dlookup q e)
          ∧ ∃ v, dlookup "time" e = some v ∧ it.2 = pyStr v) buf items := by
  induction buf with
  | nil => exact ⟨[], rfl, List.Forall₂.nil⟩
  | cons e t ih =>
    obtain ⟨v, hv⟩ := Option.isSome_iff_exists.mp (h e (List.mem_cons_self _ _))
    obtain ⟨items, hits, hall⟩ := ih fun x hx => h x (List.mem_cons_of_mem _ hx)
    have hone : exportOne e
        = some (e.filter fun p => !(p.1 == "time"), pyStr v) := by
      unfold exportOne popKey
      rw [hv]
    have hmt : mapO exportOne t = some items := by
      unfold exportCycle at hits
      cases hm : mapO exportOne t with
      | none => rw [hm] at hits; exact Option.noConfusion hits
      | some its =>
        rw [hm] at hits
        simp only at hits
        injection hits with hits'
        exact congrArg some (Prod.ext_iff.mp hits').1
    refine ⟨(e.filter fun p => !(p.1 == "time"), pyStr v) :: items, ?_, ?_⟩
    · unfold exportCycle mapO
      rw [hone, hmt]
    · exact List.Forall₂.cons
        ⟨dlookup_filter_self "time" e,
          fun q hq => dlookup_filter_other hq e, v, hv, rfl⟩ hall

/-- Witness for C10 on a one-span buffer. -/
theorem c10_export_pops_time_witness :
    (∀ e ∈ [[("time", Val.str "1"), ("x", Val.str "y")]],
        (dlookup "time" e).isSome)
    ∧ ∃ items,
        exportCycle [[("time", Val.str "1"), ("x", Val.str "y")]]
            = some (items, items.map Prod.fst)
        ∧ List.Forall₂ (fun (e : Dict) (it : Dict × String) =>
            dlookup "time" it.1 = none
            ∧ (∀ q, q ≠ "time" → dlookup q it.1 = dlookup q e)
            ∧ ∃ v, dlookup "time" e = some v ∧ it.2 = pyStr v)
          [[("time", Val.str "1"), ("x", Val.str "y")]] items :=
  ⟨by decide,
    c10_export_pops_time [[("time", Val.str "1"), ("x", Val.str "y")]]
      (by decide)⟩

end PocketTracing
